import Mathlib

/-!
Shallow embedding of the BOL-Splitter application (src/app.py): text
normalization, filename sanitization, the ordered identifier-extraction rule
catalog, the per-run name deduplication loop, and the two archive-producing
pipelines (per-page split and batch rename).  Strings are modelled as Lean
`String`s (lists of Unicode scalar values); the Python `re` engine is modelled
by an executable backtracking matcher over a regex AST with Python's
leftmost-first, greedy-with-backtracking preference order and IGNORECASE
folding for ASCII; `unicodedata.normalize("NFKD", ·)` together with the
combining-mark filter is modelled by a per-character decomposition table
(canonical reordering of combining marks is omitted: the very next step of
`sanitize_filename` deletes every combining mark, so reordering cannot change
any result of the composite pipeline).
-/

/-- Decimal digit character for a value below ten (models Python's decimal
formatting of one digit). -/
def digitCh (n : Nat) : Char :=
  if n = 0 then '0' else if n = 1 then '1' else if n = 2 then '2'
  else if n = 3 then '3' else if n = 4 then '4' else if n = 5 then '5'
  else if n = 6 then '6' else if n = 7 then '7' else if n = 8 then '8' else '9'

/-- Little-endian decimal digits of a natural number; the fuel argument is
always sufficient (it only makes the recursion structural). -/
def decAux : Nat → Nat → List Char
  | 0, _ => []
  | fuel+1, n => if n < 10 then [digitCh n] else digitCh (n % 10) :: decAux fuel (n / 10)

/-- Decimal rendering of a natural number; models Python `str(i)` / f-string
interpolation of a nonnegative integer. -/
def decRepr (n : Nat) : String := String.mk (decAux (n+1) n).reverse

/-- Value of a little-endian digit-character list (left inverse of `decAux`,
used to prove `decRepr` injective). -/
def valLE : List Char → Nat
  | [] => 0
  | c :: cs => (c.toNat - 48) + 10 * valLE cs

/-- Whitespace test matching Python's `\s` for `str` patterns and `str.strip`
(ASCII whitespace, the C1 separators, and the Unicode space characters). -/
def isPySpace (c : Char) : Bool :=
  let n := c.toNat
  (9 ≤ n && n ≤ 13) || (28 ≤ n && n ≤ 31) || n = 32 || n = 133 || n = 160 ||
  n = 0x1680 || (0x2000 ≤ n && n ≤ 0x200a) || n = 0x2028 || n = 0x2029 ||
  n = 0x202f || n = 0x205f || n = 0x3000

/-- Characters forbidden in filenames, from the character class of
`re.sub(r'[\\/*?:"<>|]+', "_", name)` in `sanitize_filename`. -/
def isForbiddenC (c : Char) : Bool :=
  c = '\\' || c = '/' || c = '*' || c = '?' || c = ':' || c = '"' ||
  c = '<' || c = '>' || c = '|'

/-- Replace every maximal run of characters satisfying `p` by the single
character `r`; the Boolean records whether we are inside a run.  Models
`re.sub(r'X+', r, s)` for a character class `X`. -/
def collRuns (p : Char → Bool) (r : Char) : Bool → List Char → List Char
  | _, [] => []
  | inRun, c :: cs =>
    if p c then
      (if inRun then collRuns p r true cs else r :: collRuns p r true cs)
    else c :: collRuns p r false cs

/-- Replace every maximal run of `p`-characters with one copy of `r`. -/
def collapseRuns (p : Char → Bool) (r : Char) (l : List Char) : List Char :=
  collRuns p r false l

/-- Drop trailing characters satisfying `p`. -/
def dropEndWhile (p : Char → Bool) (l : List Char) : List Char :=
  (l.reverse.dropWhile p).reverse

/-- Strip leading and trailing whitespace (models `str.strip()`). -/
def stripL (l : List Char) : List Char :=
  dropEndWhile isPySpace (l.dropWhile isPySpace)

/-- List-level body of `normalize_ws`: collapse whitespace runs to one space,
then strip. -/
def normWsL (l : List Char) : List Char :=
  stripL (collapseRuns isPySpace ' ' l)

/-- Model of `normalize_ws` (src/app.py line 13):
`re.sub(r"\s+", " ", s or "").strip()`. -/
def normalize_ws (s : String) : String := String.mk (normWsL s.data)

/-- Representative NFKD decomposition table (fully expanded decompositions, as
the real NFKD algorithm produces).  Characters absent from the table decompose
to themselves.  This models `unicodedata.normalize("NFKD", ·)` restricted to a
representative set of accented letters and compatibility characters. -/
def nfkdTable : List (Char × List Char) :=
  [('é', ['e', Char.ofNat 0x301]), ('è', ['e', Char.ofNat 0x300]),
   ('ê', ['e', Char.ofNat 0x302]), ('É', ['E', Char.ofNat 0x301]),
   ('ü', ['u', Char.ofNat 0x308]), ('ç', ['c', Char.ofNat 0x327]),
   ('ñ', ['n', Char.ofNat 0x303]), ('Å', ['A', Char.ofNat 0x30A]),
   ('á', ['a', Char.ofNat 0x301]), ('ﬁ', ['f', 'i']),
   ('①', ['1']), ('②', ['2']), ('²', ['2']),
   ('？', ['?']), ('＊', ['*']), (Char.ofNat 0xA0, [' '])]

/-- Per-character NFKD decomposition. -/
def nfkdChar (c : Char) : List Char :=
  match nfkdTable.lookup c with
  | some l => l
  | none => [c]

/-- Combining-mark test (models `unicodedata.combining(ch) != 0` for the
combining diacritical marks block, which covers every mark produced by
`nfkdTable`). -/
def isCombiningC (c : Char) : Bool :=
  0x300 ≤ c.toNat && c.toNat ≤ 0x36F

/-- List-level body of `sanitize_filename` before the final empty check:
NFKD-decompose, delete combining marks, replace runs of forbidden characters
by `_`, normalize whitespace, turn spaces into underscores, truncate. -/
def sanitizeL (l : List Char) (maxlen : Nat) : List Char :=
  let l1 := (l.flatMap nfkdChar).filter (fun c => !isCombiningC c)
  let l2 := collapseRuns isForbiddenC '_' l1
  let l3 := (normWsL l2).map (fun c => if c = ' ' then '_' else c)
  l3.take maxlen

/-- Model of `sanitize_filename` (src/app.py lines 16-21) with explicit
`maxlen`. -/
def sanitize_filename_max (name : String) (maxlen : Nat) : String :=
  let l := sanitizeL name.data maxlen
  if l.isEmpty then "Untitled" else String.mk l

/-- Model of `sanitize_filename` at its default `maxlen = 120` (the only way
the application calls it). -/
def sanitize_filename (name : String) : String := sanitize_filename_max name 120

/-- Candidate names tried by the de-dupe loop of `split_pdf_pages_to_zip`
(src/app.py lines 85-90), in order: the proposed name, then `base_p<i>`, then
`base_p<i>_3`, `base_p<i>_4`, and so on (`suff` starts at `2` and the first
retry omits the numeric suffix). -/
def candidate (base : String) (i : Nat) : Nat → String
  | 0 => base
  | 1 => base ++ "_p" ++ decRepr i
  | n+2 => base ++ "_p" ++ decRepr i ++ "_" ++ decRepr (n+3)

/-- De-dupe loop walking the candidate sequence from index `n`; the fuel makes
the recursion structural and is always sufficient (the candidates are pairwise
distinct, so at most `seen.length` of them can collide). -/
def dedupeFrom (base : String) (i : Nat) (seen : List String) : Nat → Nat → String
  | 0, n => candidate base i n
  | fuel+1, n =>
    if candidate base i n ∈ seen then dedupeFrom base i seen fuel (n+1)
    else candidate base i n

/-- Model of the `while fname in seen` de-dupe loop: return the first candidate
name not yet in `seen`. -/
def dedupe (base : String) (i : Nat) (seen : List String) : String :=
  dedupeFrom base i seen (seen.length + 1) 0

/-!  Regex engine: AST and Python-style backtracking search. -/

/-- Regex AST covering the constructs used by the application's patterns and by
simple user overrides: character classes (unions of scalar ranges), sequence,
ordered alternation, greedy Kleene star, capturing groups, and the `\b` word
boundary. -/
inductive RE where
  | eps : RE
  | cls : List (Char × Char) → RE
  | seq : RE → RE → RE
  | alt : RE → RE → RE
  | star : RE → RE
  | group : Nat → RE → RE
  | wordB : RE
deriving DecidableEq

/-- Scalar-value membership in a union of ranges. -/
def inRangesN (n : Nat) (rs : List (Char × Char)) : Bool :=
  rs.any (fun p => p.1.toNat ≤ n && n ≤ p.2.toNat)

/-- ASCII lowercase fold on scalar values. -/
def lowerN (n : Nat) : Nat := if 65 ≤ n && n ≤ 90 then n + 32 else n

/-- ASCII uppercase fold on scalar values. -/
def upperN (n : Nat) : Nat := if 97 ≤ n && n ≤ 122 then n - 32 else n

/-- Case-insensitive class membership: a character matches when it or its ASCII
case variant lies in the class (models `re.IGNORECASE`, which every search in
the application passes). -/
def inClassCI (c : Char) (rs : List (Char × Char)) : Bool :=
  inRangesN c.toNat rs || inRangesN (lowerN c.toNat) rs || inRangesN (upperN c.toNat) rs

/-- Word-character test for `\b` (ASCII letters, digits, underscore). -/
def isWordC (c : Char) : Bool :=
  inRangesN c.toNat [('A','Z'), ('a','z'), ('0','9'), ('_','_')]

/-- Word-character test lifted to an optional character (none at the text
edges, which count as non-word). -/
def wordish : Option Char → Bool
  | none => false
  | some c => isWordC c

/-- Matcher state: remaining input, previous character (for `\b`), and the
current captures of groups 1..n. -/
structure MSt where
  rest : List Char
  prev : Option Char
  groups : List (Option String)

/-- Result of a successful search, mirroring the parts of a Python match
object the application reads: the whole matched text (`group(0)`) and the
captures of the numbered groups (`group(i)`, `None` when the group did not
participate). -/
structure PyMatch where
  matched : String
  groups : List (Option String)
deriving DecidableEq

/-- Backtracking matcher in continuation style.  Alternatives are tried left
first; a star greedily tries one more iteration before matching empty — the
preference order of Python's backtracking engine.  The fuel only bounds
recursion depth and is chosen large enough by `matchAt`. -/
def runM : Nat → RE → MSt → (MSt → Option PyMatch) → Option PyMatch
  | 0, _, _, _ => none
  | fuel+1, re, st, k =>
    match re with
    | .eps => k st
    | .wordB => if wordish st.prev != wordish st.rest.head? then k st else none
    | .cls rs =>
      match st.rest with
      | [] => none
      | c :: cs => if inClassCI c rs then k ⟨cs, some c, st.groups⟩ else none
    | .seq a b => runM fuel a st (fun st2 => runM fuel b st2 k)
    | .alt a b =>
      match runM fuel a st k with
      | some m => some m
      | none => runM fuel b st k
    | .star a =>
      match runM fuel a st (fun st2 => runM fuel (.star a) st2 k) with
      | some m => some m
      | none => k st
    | .group gi a =>
      runM fuel a st (fun st2 =>
        k ⟨st2.rest, st2.prev, st2.groups.set (gi-1)
             (some (String.mk (st.rest.take (st.rest.length - st2.rest.length))))⟩)

/-- Size of a regex AST, used to compute a sufficient fuel. -/
def reSize : RE → Nat
  | .eps => 1
  | .cls _ => 1
  | .seq a b => reSize a + reSize b + 1
  | .alt a b => reSize a + reSize b + 1
  | .star a => reSize a + 1
  | .group _ a => reSize a + 1
  | .wordB => 1

/-- Attempt to match `re` at position `pos` of `text`. -/
def matchAt (re : RE) (ng : Nat) (text : List Char) (pos : Nat) : Option PyMatch :=
  let tail := text.drop pos
  let prev := if pos = 0 then none else text[pos-1]?
  runM ((reSize re + 1) * (tail.length + 2)) re ⟨tail, prev, List.replicate ng none⟩
    (fun st => some ⟨String.mk (tail.take (tail.length - st.rest.length)), st.groups⟩)

/-- Try successive start positions (leftmost match wins, as in `re.search`). -/
def searchFrom (re : RE) (ng : Nat) (text : List Char) : Nat → Nat → Option PyMatch
  | 0, _ => none
  | k+1, pos =>
    match matchAt re ng text pos with
    | some m => some m
    | none => searchFrom re ng text k (pos+1)

/-- Model of `re.search(pattern, text, flags=re.IGNORECASE)`. -/
def pySearchL (re : RE) (ng : Nat) (text : List Char) : Option PyMatch :=
  searchFrom re ng text (text.length + 1) 0

/-- Single literal character (case-insensitively matched, like every literal
in the application's IGNORECASE patterns). -/
def rlit (c : Char) : RE := .cls [(c, c)]

/-- Sequence of literal characters. -/
def rstr (s : String) : RE := s.data.foldr (fun c acc => .seq (rlit c) acc) .eps

/-- Sequence of regexes. -/
def seqL (l : List RE) : RE := l.foldr .seq .eps

/-- Ordered alternation of a list of regexes. -/
def altL : List RE → RE
  | [] => .eps
  | [r] => r
  | r :: rs => .alt r (altL rs)

/-- Greedy `?`. -/
def ropt (r : RE) : RE := .alt r .eps

/-- Greedy `+`. -/
def rplus (r : RE) : RE := .seq r (.star r)

/-- Greedy `{k,}`. -/
def rrepAtLeast : Nat → RE → RE
  | 0, r => .star r
  | k+1, r => .seq r (rrepAtLeast k r)

/-- Greedy chain of up to `k` optional repetitions (prefers more). -/
def optChain : Nat → RE → RE
  | 0, _ => .eps
  | k+1, r => .alt (.seq r (optChain k r)) .eps

/-- Greedy `{lo,hi}`. -/
def rrepRange : Nat → Nat → RE → RE
  | 0, hi, r => optChain hi r
  | lo+1, hi, r => .seq r (rrepRange lo (hi-1) r)

/-- Ranges matched by `\s` (same set as `isPySpace`). -/
def wsRanges : List (Char × Char) :=
  [('\t', Char.ofNat 13), (Char.ofNat 28, Char.ofNat 31), (' ', ' '),
   (Char.ofNat 133, Char.ofNat 133), (Char.ofNat 160, Char.ofNat 160),
   (Char.ofNat 0x1680, Char.ofNat 0x1680), (Char.ofNat 0x2000, Char.ofNat 0x200a),
   (Char.ofNat 0x2028, Char.ofNat 0x2029), (Char.ofNat 0x202f, Char.ofNat 0x202f),
   (Char.ofNat 0x205f, Char.ofNat 0x205f), (Char.ofNat 0x3000, Char.ofNat 0x3000)]

/-- Greedy `\s*`. -/
def wsStar : RE := .star (.cls wsRanges)

/-- Class `\d`. -/
def digitCls : RE := .cls [('0','9')]

/-- Class `[A-Z]` (IGNORECASE makes it match lowercase as well). -/
def upperCls : RE := .cls [('A','Z')]

/-- Class `[A-Za-z0-9]`. -/
def alnumCls : RE := .cls [('A','Z'), ('a','z'), ('0','9')]

/-- Class `[A-Za-z0-9\-]`. -/
def alnumDashCls : RE := .cls [('A','Z'), ('a','z'), ('0','9'), ('-','-')]

/-- Class `[:\-]`. -/
def colonDashCls : RE := .cls [(':',':'), ('-','-')]

/-!  The application's built-in patterns, translated from the pattern strings
in `patterns_for_mode` and `extract_bol_from_first_page`. -/

/-- Capture body `[A-Z]{2,5}\d{4,}[A-Za-z0-9\-]*` shared by three rules. -/
def identCore1 : RE :=
  seqL [rrepRange 2 5 upperCls, rrepAtLeast 4 digitCls, .star alnumDashCls]

/-- Pattern `EDI\s*Import\s*Primary\s*Reference\s*[:\-]?\s*([A-Z]{2,5}\d{4,}[A-Za-z0-9\-]*)`. -/
def reEdiImport : RE :=
  seqL [rstr "EDI", wsStar, rstr "Import", wsStar, rstr "Primary", wsStar,
        rstr "Reference", wsStar, ropt colonDashCls, wsStar, .group 1 identCore1]

/-- Pattern `Shipment\s*Matching\s*Reference\s*[:\-]?\s*([A-Z]{2,5}\d{4,}(?:[-_/][A-Za-z0-9]+)*)`. -/
def reShipMatch : RE :=
  seqL [rstr "Shipment", wsStar, rstr "Matching", wsStar, rstr "Reference",
        wsStar, ropt colonDashCls, wsStar,
        .group 1 (seqL [rrepRange 2 5 upperCls, rrepAtLeast 4 digitCls,
          .star (seqL [.cls [('-','-'), ('_','_'), ('/','/')], rplus alnumCls])])]

/-- Pattern `\bPrimary\s*Ref(?:erence)?\s*[:\-]?\s*([A-Z]{2,5}\d{4,}[A-Za-z0-9\-]*)`. -/
def rePrimaryRef : RE :=
  seqL [.wordB, rstr "Primary", wsStar, rstr "Ref", ropt (rstr "erence"),
        wsStar, ropt colonDashCls, wsStar, .group 1 identCore1]

/-- Pattern `\bBOL(?:\s*Number|\s*No\.?|#)?\s*[:\-]?\s*([A-Z]{2,5}\d{4,}[A-Za-z0-9\-]*)`. -/
def reBolNum : RE :=
  seqL [.wordB, rstr "BOL",
        ropt (altL [seqL [wsStar, rstr "Number"],
                    seqL [wsStar, rstr "No", ropt (rlit '.')],
                    rstr "#"]),
        wsStar, ropt colonDashCls, wsStar, .group 1 identCore1]

/-- Pattern `\b(?:PLS|PCL)[-]?\d{4,}[A-Za-z0-9\-]*\b`. -/
def reLoose : RE :=
  seqL [.wordB, .alt (rstr "PLS") (rstr "PCL"), ropt (rlit '-'),
        rrepAtLeast 4 digitCls, .star alnumDashCls, .wordB]

/-- Model of `trim_left_token` inside `patterns_for_mode`:
`g.split("-", 1)[0]`, everything before the first dash. -/
def trim_left_token (g : String) : String :=
  String.mk (g.data.takeWhile (fun c => c ≠ '-'))

/-- One entry of the pattern catalog: label, pattern, group count, optional
post-processing. -/
structure XRule where
  label : String
  re : RE
  ngroups : Nat
  post : Option (String → String)

/-- Rule-set `edi_core` of `patterns_for_mode`. -/
def edi_core : List XRule :=
  [⟨"EDI Import Primary Reference", reEdiImport, 1, none⟩,
   ⟨"Shipment Matching Reference", reShipMatch, 1, some trim_left_token⟩]

/-- Rule-set `legacy_core` of `patterns_for_mode`. -/
def legacy_core : List XRule :=
  [⟨"Primary Reference / Primary Ref", rePrimaryRef, 1, none⟩,
   ⟨"BOL Number", reBolNum, 1, none⟩]

/-- Rule-set `loose` of `patterns_for_mode`. -/
def loose : List XRule :=
  [⟨"Loose PLS/PCL token", reLoose, 0, none⟩]

/-- Model of `patterns_for_mode` (src/app.py lines 26-55): rule order per
profile string; any unrecognized string (the UI sends "Auto (recommended)")
gets the Auto order. -/
def patterns_for_mode (mode : String) : List XRule :=
  if mode = "EDI Import" then edi_core ++ legacy_core ++ loose
  else if mode = "Legacy: Primary Reference" then legacy_core ++ edi_core ++ loose
  else edi_core ++ legacy_core ++ loose

/-- Value the application reads off a match object:
`m.group(1) if m.lastindex else m.group(0)` — the first group's capture when
any group participated in the match, otherwise the whole match (a
non-participating group reads as the empty string after `normalize_ws`). -/
def selValue (m : PyMatch) : String :=
  if m.groups.any Option.isSome then (m.groups.getD 0 none).getD "" else m.matched

/-- Apply one rule to the text: search, read the capture, whitespace-normalize,
post-process, normalize again (src/app.py lines 60-63). -/
def applyRule (r : XRule) (t : List Char) : Option String :=
  match pySearchL r.re r.ngroups t with
  | none => none
  | some m =>
    let g := normalize_ws (selValue m)
    some (normalize_ws (match r.post with | some f => f g | none => g))

/-- First-match-wins walk over a rule list. -/
def firstRuleMatch : List XRule → List Char → Option String
  | [], _ => none
  | r :: rs, t =>
    match applyRule r t with
    | some v => some v
    | none => firstRuleMatch rs t

/-- Model of `extract_identifier` (src/app.py lines 57-64). -/
def extract_identifier (text : String) (mode : String) : Option String :=
  firstRuleMatch (patterns_for_mode mode) text.data

/-!  Regex parsing for the user-supplied override of the batch renamer.  This
models the subset of Python's pattern syntax a simple override uses: literals,
escapes, character classes, groups, alternation and the greedy quantifiers.
Anything outside the subset is reported as a parse failure, which the caller
treats exactly like Python's `re.error`. -/

/-- Digit test for the quantifier and class parsing. -/
def isDigitC (c : Char) : Bool := 48 ≤ c.toNat && c.toNat ≤ 57

/-- Numeric value of a digit-character list (big-endian). -/
def digitsVal (l : List Char) : Nat := l.foldl (fun a c => a * 10 + (c.toNat - 48)) 0

/-- Parse the inside of a `{...}` quantifier, after the opening brace: returns
lower bound, optional upper bound, and the rest.  `none` means the braces do
not form a quantifier (Python then treats the brace as a literal). -/
def parseQuant (l : List Char) : Option (Nat × Option Nat × List Char) :=
  let d1 := l.takeWhile isDigitC
  let r1 := l.dropWhile isDigitC
  match r1 with
  | '}' :: r2 => if d1.isEmpty then none else some (digitsVal d1, some (digitsVal d1), r2)
  | ',' :: r2 =>
    let d2 := r2.takeWhile isDigitC
    let r3 := r2.dropWhile isDigitC
    match r3 with
    | '}' :: r4 =>
      if d1.isEmpty && d2.isEmpty then none
      else if d2.isEmpty then some (digitsVal d1, none, r4)
      else some (digitsVal d1, some (digitsVal d2), r4)
    | _ => none
  | _ => none

/-- Ranges denoted by `\d`. -/
def digitRanges : List (Char × Char) := [('0','9')]

/-- Ranges denoted by `\w`. -/
def wordRanges : List (Char × Char) := [('A','Z'), ('a','z'), ('0','9'), ('_','_')]

/-- Parse the body of a character class after `[`, accumulating ranges; ends at
the closing `]`.  Rejects unterminated classes, bad ranges, and (unsupported)
negated classes via the caller. -/
def parseClass : List Char → List (Char × Char) → Option (List (Char × Char) × List Char)
  | [], _ => none
  | ']' :: r, acc => if acc.isEmpty then parseClass r [(']', ']')] else some (acc, r)
  | '\\' :: e :: r, acc =>
    if e = 'd' then parseClass r (acc ++ digitRanges)
    else if e = 's' then parseClass r (acc ++ wsRanges)
    else if e = 'w' then parseClass r (acc ++ wordRanges)
    else parseClass r (acc ++ [(e, e)])
  | ['\\'], _ => none
  | '-' :: r, acc => parseClass r (acc ++ [('-', '-')])
  | c :: '-' :: d :: r, acc =>
    if d = ']' then some (acc ++ [(c, c), ('-', '-')], r)
    else if c.toNat ≤ d.toNat then parseClass r (acc ++ [(c, d)])
    else none
  | c :: r, acc => parseClass r (acc ++ [(c, c)])

/-- Apply a postfix quantifier (if present) to the item just parsed.  Lazy
quantifiers (`*?` and friends) are outside the supported subset; a brace that
does not read as a quantifier stays literal, as in Python. -/
def applyQuant (item : RE) (l : List Char) : Option (RE × List Char) :=
  match l with
  | '*' :: '?' :: _ => none
  | '*' :: r => some (.star item, r)
  | '+' :: '?' :: _ => none
  | '+' :: r => some (.seq item (.star item), r)
  | '?' :: '?' :: _ => none
  | '?' :: r => some (.alt item .eps, r)
  | '{' :: r =>
    match parseQuant r with
    | some (lo, some hi, r2) => if lo ≤ hi then some (rrepRange lo hi item, r2) else none
    | some (lo, none, r2) => some (rrepAtLeast lo item, r2)
    | none => some (item, '{' :: r)
  | _ => some (item, l)

/-- Glue after one sequence item: apply a quantifier, parse the remaining
sequence with `cont`, prepend the item. -/
def quantThen (cont : List Char → Nat → Option (RE × List Char × Nat))
    (item : RE) (r : List Char) (g : Nat) : Option (RE × List Char × Nat) :=
  match applyQuant item r with
  | none => none
  | some (item2, r2) =>
    match cont r2 g with
    | none => none
    | some (tailRe, s3, g3) => some (.seq item2 tailRe, s3, g3)

/-- Recursive-descent parsing of the supported pattern subset.  The Boolean
selects the level: `true` parses an alternation, `false` a sequence.  All
recursion is on the fuel, which `compileRegexL` makes ample; `g` counts opened
capturing groups (Python numbers groups by opening parenthesis). -/
def parseP : Nat → Bool → List Char → Nat → Option (RE × List Char × Nat)
  | 0, _, _, _ => none
  | fuel+1, true, s, g =>
    match parseP fuel false s g with
    | none => none
    | some (r, s1, g1) =>
      match s1 with
      | '|' :: s2 =>
        match parseP fuel true s2 g1 with
        | none => none
        | some (r2, s3, g2) => some (.alt r r2, s3, g2)
      | _ => some (r, s1, g1)
  | fuel+1, false, s, g =>
    match s with
    | [] => some (.eps, [], g)
    | ')' :: r => some (.eps, ')' :: r, g)
    | '|' :: r => some (.eps, '|' :: r, g)
    | '*' :: _ => none
    | '+' :: _ => none
    | '?' :: _ => none
    | '(' :: '?' :: ':' :: r =>
      match parseP fuel true r g with
      | some (body, ')' :: r3, g2) => quantThen (parseP fuel false) body r3 g2
      | _ => none
    | '(' :: '?' :: _ => none
    | '(' :: r =>
      match parseP fuel true r (g+1) with
      | some (body, ')' :: r3, g2) => quantThen (parseP fuel false) (.group (g+1) body) r3 g2
      | _ => none
    | '[' :: '^' :: _ => none
    | '[' :: r =>
      match parseClass r [] with
      | some (rs, r2) => quantThen (parseP fuel false) (.cls rs) r2 g
      | none => none
    | '\\' :: e :: r =>
      if e = 'd' then quantThen (parseP fuel false) (.cls digitRanges) r g
      else if e = 's' then quantThen (parseP fuel false) (.cls wsRanges) r g
      else if e = 'w' then quantThen (parseP fuel false) (.cls wordRanges) r g
      else if e = 'b' then quantThen (parseP fuel false) .wordB r g
      else if isDigitC e then none
      else if e = 'D' || e = 'S' || e = 'W' || e = 'B' || e = 'A' || e = 'Z' then none
      else quantThen (parseP fuel false) (rlit e) r g
    | ['\\'] => none
    | '.' :: r =>
      quantThen (parseP fuel false)
        (.cls [(Char.ofNat 0, Char.ofNat 9), (Char.ofNat 11, Char.ofNat 0x10FFFF)]) r g
    | c :: r => quantThen (parseP fuel false) (rlit c) r g

/-- Compile a pattern string: parse a full alternation and require all input
consumed (a stray `)` or unclosed `(` therefore fails, as in Python). -/
def compileRegexL (s : List Char) : Option (RE × Nat) :=
  match parseP (4 * s.length + 16) true s 0 with
  | some (r, [], g) => some (r, g)
  | _ => none

/-- Batch-rename labeled rule
`\bBOL\s*(?:Number|No\.?|#)?\s*[:\-]?\s*(PLS\d{8,})`. -/
def reB1 : RE :=
  seqL [.wordB, rstr "BOL", wsStar,
        ropt (altL [rstr "Number", seqL [rstr "No", ropt (rlit '.')], rstr "#"]),
        wsStar, ropt colonDashCls, wsStar,
        .group 1 (.seq (rstr "PLS") (rrepAtLeast 8 digitCls))]

/-- Batch-rename labeled rule
`\bBill\s*of\s*Lading(?:\s*Number|\s*No\.?|#)?\s*[:\-]?\s*(PLS\d{8,})`. -/
def reB2 : RE :=
  seqL [.wordB, rstr "Bill", wsStar, rstr "of", wsStar, rstr "Lading",
        ropt (altL [seqL [wsStar, rstr "Number"],
                    seqL [wsStar, rstr "No", ropt (rlit '.')],
                    rstr "#"]),
        wsStar, ropt colonDashCls, wsStar,
        .group 1 (.seq (rstr "PLS") (rrepAtLeast 8 digitCls))]

/-- Batch-rename labeled rule
`\bPrimary\s*Ref(?:erence)?\s*[:\-]?\s*(PLS\d{8,})`. -/
def reB3 : RE :=
  seqL [.wordB, rstr "Primary", wsStar, rstr "Ref", ropt (rstr "erence"),
        wsStar, ropt colonDashCls, wsStar,
        .group 1 (.seq (rstr "PLS") (rrepAtLeast 8 digitCls))]

/-- Batch-rename loose rule `\b(?:PLS|PCL)[-]?\d{6,}\b`. -/
def reBLoose : RE :=
  seqL [.wordB, .alt (rstr "PLS") (rstr "PCL"), ropt (rlit '-'),
        rrepAtLeast 6 digitCls, .wordB]

/-- First-match-wins walk over the labeled batch rules, returning
`normalize_ws(m.group(1))` (src/app.py lines 129-132). -/
def firstLabeledBol : List RE → List Char → Option String
  | [], _ => none
  | r :: rs, t =>
    match pySearchL r 1 t with
    | some m => some (normalize_ws ((m.groups.getD 0 none).getD ""))
    | none => firstLabeledBol rs t

/-- Model of `extract_bol_from_first_page` (src/app.py lines 105-139): the
override (when present, nonempty, and compilable) is tried first and its match
value is returned immediately; a compile failure is swallowed; then the three
labeled rules in order; then the loose token rule. -/
def extract_bol_from_first_page (text : String) (custom_regex : Option String) :
    Option String :=
  let t := text.data
  let viaCustom : Option String :=
    match custom_regex with
    | none => none
    | some p =>
      if p.isEmpty then none
      else
        match compileRegexL p.data with
        | none => none
        | some (r, ng) =>
          match pySearchL r ng t with
          | none => none
          | some m => some (normalize_ws (selValue m))
  match viaCustom with
  | some v => some v
  | none =>
    match firstLabeledBol [reB1, reB2, reB3] t with
    | some v => some v
    | none =>
      match pySearchL reBLoose 0 t with
      | some m => some (normalize_ws m.matched)
      | none => none

/-!  The two pipelines.  Page and archive content are modelled abstractly: the
single-page serialization and the raw bytes written into the archive are
opaque payloads, and an archive is the ordered list of (entry name, payload)
pairs written by `zipf.writestr` (Python's `zipfile` appends an entry even
when the name repeats). -/

/-- One page of the uploaded document: `textResult` is the outcome of
`page.extract_text()`, with `none` standing for an exception (the code then
uses the empty string; a `None`/empty result is also turned into `""` by the
`or ""`). -/
structure Page where
  textResult : Option String
deriving DecidableEq

/-- Text actually used for a page: `page.extract_text() or ""` under the
enclosing `try/except`. -/
def pageText (p : Page) : String := p.textResult.getD ""

/-- Loop body of `split_pdf_pages_to_zip` (src/app.py lines 75-97): resolve an
identifier (falling back to `Page_<i>` when extraction returns nothing or an
empty string), sanitize, de-dupe against `seen`, and emit the page under
`<name>.pdf`. -/
def splitGo (mode : String) : List Page → Nat → List String → List (String × Page)
  | [], _, _ => []
  | p :: rest, i, seen =>
    let ident :=
      match extract_identifier (pageText p) mode with
      | some s => if s.isEmpty then "Page_" ++ decRepr i else s
      | none => "Page_" ++ decRepr i
    let fname := sanitize_filename ident
    let fn := dedupe fname i seen
    (fn ++ ".pdf", p) :: splitGo mode rest (i+1) (fn :: seen)

/-- Model of `split_pdf_pages_to_zip` (src/app.py lines 66-100): the archive
produced by splitting, as the list of written entries in order. -/
def split_pdf_pages_to_zip (pages : List Page) (mode : String) : List (String × Page) :=
  splitGo mode pages 1 []

/-- One uploaded file of the batch: `fails` marks an unexpected exception in
the per-file `try` block (unreadable document); `text` is the first page's
text after the inner `extract_text` fallback; `origName` the optional `name`
attribute; `content` the raw bytes `up.read()` returns; `errMsg` the rendering
of the caught exception. -/
structure UpFile where
  fails : Bool
  text : String
  origName : Option String
  content : String
  errMsg : String
deriving DecidableEq

/-- Archive entry payload: a PDF payload or an `ERROR_<n>.txt` diagnostic. -/
inductive ZEntry where
  | pdf : String → ZEntry
  | errTxt : String → ZEntry
deriving DecidableEq

/-- Error test on an entry payload. -/
def ZEntry.isErr : ZEntry → Bool
  | .pdf _ => false
  | .errTxt _ => true

/-- Substring after the last occurrence of `sep` (Python
`s.rsplit(sep, 1)[-1]`); the whole string when `sep` does not occur. -/
def afterLastSep (sep : List Char) (l : List Char) : List Char :=
  match ((List.range (l.length + 1)).filter (fun p => sep.isPrefixOf (l.drop p))).getLast? with
  | some p => l.drop (p + sep.length)
  | none => l

/-- Substring before the last occurrence of `sep` (Python
`s.rsplit(sep, 1)[0]`); the whole string when `sep` does not occur. -/
def beforeLastSep (sep : List Char) (l : List Char) : List Char :=
  match ((List.range (l.length + 1)).filter (fun p => sep.isPrefixOf (l.drop p))).getLast? with
  | some p => l.take p
  | none => l

/-- Fallback base name from the original file name (src/app.py lines 168-169):
strip directories, then the part before the last `.pdf`. -/
def fallbackStem (nm : String) : String :=
  String.mk (beforeLastSep ".pdf".data (afterLastSep "\\".data (afterLastSep "/".data nm.data)))

/-- Python truthiness of `hasattr(up, "name") and up.name`. -/
def nameTruthy : Option String → Bool
  | none => false
  | some s => !s.isEmpty

/-- Python truthiness of the `bol` result (`None` and `""` are falsy). -/
def bolTruthy : Option String → Bool
  | none => false
  | some s => !s.isEmpty

/-- Loop body of `batch_rename_pdfs_to_zip` (src/app.py lines 154-183): a
failing file contributes only its `ERROR_<idx>.txt` diagnostic; otherwise the
file's bytes are written under the BOL name, the original-name fallback, or
`Untitled_<k>` (counter incremented only on that branch). -/
def batchGo (cr : Option String) (keep : Bool) :
    List UpFile → Nat → Nat → List (String × ZEntry)
  | [], _, _ => []
  | up :: rest, idx, uidx =>
    if up.fails then
      ("ERROR_" ++ decRepr idx ++ ".txt",
       ZEntry.errTxt ("Failed to process file " ++ (up.origName.getD "(unknown)") ++
                      ": " ++ up.errMsg)) :: batchGo cr keep rest (idx+1) uidx
    else
      let bol := extract_bol_from_first_page up.text cr
      if bolTruthy bol then
        (sanitize_filename (bol.getD "") ++ ".pdf", ZEntry.pdf up.content) ::
          batchGo cr keep rest (idx+1) uidx
      else if keep && nameTruthy up.origName then
        (sanitize_filename (fallbackStem (up.origName.getD "")) ++ ".pdf",
         ZEntry.pdf up.content) :: batchGo cr keep rest (idx+1) uidx
      else
        ("Untitled_" ++ decRepr uidx ++ ".pdf", ZEntry.pdf up.content) ::
          batchGo cr keep rest (idx+1) (uidx+1)

/-- Model of `batch_rename_pdfs_to_zip` (src/app.py lines 141-186). -/
def batch_rename_pdfs_to_zip (files : List UpFile) (custom_regex : Option String)
    (keep_original_name_fallback : Bool) : List (String × ZEntry) :=
  batchGo custom_regex keep_original_name_fallback files 1 1

/-- First rule-set result under the EDI rules (what §8 of the spec calls "the
EDI match" of a text). -/
def ediResult (t : String) : Option String := firstRuleMatch edi_core t.data

/-- First rule-set result under the legacy rules. -/
def legacyResult (t : String) : Option String := firstRuleMatch legacy_core t.data

/-- Characters that every stage of `sanitize_filename` leaves alone: stable
under NFKD, not a combining mark, not forbidden, not whitespace. -/
def cleanC (c : Char) : Prop :=
  nfkdChar c = [c] ∧ isCombiningC c = false ∧ isForbiddenC c = false ∧
  isPySpace c = false

instance (c : Char) : Decidable (cleanC c) := by
  unfold cleanC
  infer_instance

/-- Head is not whitespace (vacuously true for the empty list). -/
def headNotSp : List Char → Bool
  | [] => true
  | c :: _ => !isPySpace c

/-- Normal-form test for whitespace runs: every whitespace character is a
plain space and no two whitespace characters are adjacent. -/
def wsRunOk : List Char → Bool
  | [] => true
  | c :: cs => (if isPySpace c then (c == ' ') && headNotSp cs else true) && wsRunOk cs

/-!  Lemmas: decimal rendering. -/

/-- Digit characters decode back to their value. -/
theorem digitCh_val : ∀ n, n < 10 → (digitCh n).toNat - 48 = n := by decide

/-- Digit characters are decimal digits. -/
theorem digitCh_mem : ∀ n, digitCh n ∈ ['0','1','2','3','4','5','6','7','8','9'] := by
  intro n
  unfold digitCh
  split_ifs <;> decide

/-- The digit list of `n` decodes to `n` whenever the fuel covers `n`. -/
theorem valLE_decAux : ∀ fuel n, n < fuel → valLE (decAux fuel n) = n := by
  intro fuel
  induction fuel with
  | zero => intro n h; omega
  | succ f ih =>
    intro n h
    by_cases h10 : n < 10
    · simp only [decAux, if_pos h10, valLE]
      rw [digitCh_val n h10]
      omega
    · simp only [decAux, if_neg h10, valLE]
      have hdiv : n / 10 < f := by
        have h1 : n / 10 < n := Nat.div_lt_self (by omega) (by omega)
        omega
      rw [ih (n / 10) hdiv, digitCh_val (n % 10) (Nat.mod_lt n (by omega))]
      omega

/-- Decimal rendering is injective. -/
theorem decRepr_inj {a b : Nat} (h : decRepr a = decRepr b) : a = b := by
  have hd : (decAux (a+1) a).reverse = (decAux (b+1) b).reverse := congrArg String.data h
  have hl : decAux (a+1) a = decAux (b+1) b := List.reverse_injective hd
  have := valLE_decAux (a+1) a (by omega)
  rw [hl, valLE_decAux (b+1) b (by omega)] at this
  omega

/-- The digit list is never empty (with positive fuel). -/
theorem decAux_ne_nil : ∀ fuel n, 0 < fuel → decAux fuel n ≠ [] := by
  intro fuel n h
  cases fuel with
  | zero => omega
  | succ f =>
    simp only [decAux]
    split <;> simp

/-- The rendered number has at least one character. -/
theorem decRepr_len_pos (n : Nat) : 0 < (decRepr n).data.length := by
  have := decAux_ne_nil (n+1) n (by omega)
  simp only [decRepr]
  cases hv : decAux (n+1) n with
  | nil => exact absurd hv this
  | cons c cs => simp

/-- Every character of a rendered number is a decimal digit. -/
theorem decAux_chars : ∀ fuel n c, c ∈ decAux fuel n →
    c ∈ ['0','1','2','3','4','5','6','7','8','9'] := by
  intro fuel
  induction fuel with
  | zero => intro n c h; simp [decAux] at h
  | succ f ih =>
    intro n c h
    simp only [decAux] at h
    split at h
    · simp at h; subst h; exact digitCh_mem n
    · rcases List.mem_cons.mp h with h1 | h2
      · subst h1; exact digitCh_mem (n % 10)
      · exact ih (n / 10) c h2

/-- String-level variant of `decAux_chars`. -/
theorem decRepr_chars (n : Nat) (c : Char) (h : c ∈ (decRepr n).data) :
    c ∈ ['0','1','2','3','4','5','6','7','8','9'] := by
  simp only [decRepr] at h
  exact decAux_chars (n+1) n c (List.mem_reverse.mp h)

/-!  Lemmas: the candidate sequence of the de-dupe loop. -/

/-- Data of an appended string. -/
theorem strApp_data (a b : String) : (a ++ b).data = a.data ++ b.data := rfl

/-- Candidates for one base and page index are pairwise distinct. -/
theorem candidate_inj (base : String) (i : Nat) :
    Function.Injective (candidate base i) := by
  have hD := decRepr_len_pos i
  intro m n h
  match m, n with
  | 0, 0 => rfl
  | 0, 1 =>
    have := congrArg (fun s => s.data.length) h
    simp [candidate, strApp_data] at this
  | 1, 0 =>
    have := congrArg (fun s => s.data.length) h
    simp [candidate, strApp_data] at this
  | 0, n+2 =>
    have := congrArg (fun s => s.data.length) h
    simp [candidate, strApp_data] at this
  | m+2, 0 =>
    have := congrArg (fun s => s.data.length) h
    simp [candidate, strApp_data] at this
  | 1, n+2 =>
    have := congrArg (fun s => s.data.length) h
    simp [candidate, strApp_data] at this
  | m+2, 1 =>
    have := congrArg (fun s => s.data.length) h
    simp [candidate, strApp_data] at this
  | 1, 1 => rfl
  | m+2, n+2 =>
    have hd := congrArg String.data h
    simp only [candidate, strApp_data, List.append_assoc] at hd
    have h1 := List.append_cancel_left hd
    have h2 := List.append_cancel_left h1
    have h3 := List.append_cancel_left h2
    have h4 := List.append_cancel_left h3
    have : decRepr (m+3) = decRepr (n+3) := String.ext h4
    have := decRepr_inj this
    omega

/-!  Lemmas: the de-dupe loop returns the first free candidate and never
returns a name already in `seen`. -/

/-- If every candidate below `n` is in `seen`, then `n` is at most
`seen.length` (the candidates are distinct, so they pigeonhole into `seen`). -/
theorem cand_below_le (base : String) (i : Nat) (seen : List String) (n : Nat)
    (h : ∀ m, m < n → candidate base i m ∈ seen) : n ≤ seen.length := by
  have hnd : ((List.range n).map (candidate base i)).Nodup :=
    (List.nodup_range n).map (candidate_inj base i)
  have hsub : (List.range n).map (candidate base i) ⊆ seen := by
    intro x hx
    rcases List.mem_map.mp hx with ⟨m, hm, rfl⟩
    exact h m (List.mem_range.mp hm)
  have := (List.subperm_of_subset hnd hsub).length_le
  simpa using this

/-- The loop walk returns candidate `n` when `n` is the first free index at or
after `start` and the fuel covers the distance. -/
theorem dedupeFrom_eq (base : String) (i : Nat) (seen : List String) :
    ∀ fuel start n, start ≤ n → n - start < fuel →
    candidate base i n ∉ seen →
    (∀ m, start ≤ m → m < n → candidate base i m ∈ seen) →
    dedupeFrom base i seen fuel start = candidate base i n := by
  intro fuel
  induction fuel with
  | zero => intro start n h1 h2 _ _; omega
  | succ f ih =>
    intro start n h1 h2 hfree hall
    by_cases hs : start = n
    · subst hs
      simp [dedupeFrom, hfree]
    · have hlt : start < n := by omega
      have hmem : candidate base i start ∈ seen := hall start (le_refl start) hlt
      simp only [dedupeFrom, if_pos hmem]
      exact ih (start+1) n (by omega) (by omega) hfree
        (fun m hm1 hm2 => hall m (by omega) hm2)

/-- Characterization of `dedupe`: it returns the first candidate not in
`seen`. -/
theorem dedupe_eq (base : String) (i : Nat) (seen : List String) (n : Nat)
    (hfree : candidate base i n ∉ seen)
    (hall : ∀ m, m < n → candidate base i m ∈ seen) :
    dedupe base i seen = candidate base i n := by
  have hn : n ≤ seen.length := cand_below_le base i seen n hall
  exact dedupeFrom_eq base i seen (seen.length + 1) 0 n (Nat.zero_le n) (by omega)
    hfree (fun m _ hm2 => hall m hm2)

/-- Some candidate is always free. -/
theorem exists_free (base : String) (i : Nat) (seen : List String) :
    ∃ n, candidate base i n ∉ seen := by
  by_contra hc
  push_neg at hc
  have := cand_below_le base i seen (seen.length + 1) (fun m _ => hc m)
  omega

/-- The name `dedupe` returns is never one already in `seen`. -/
theorem dedupe_fresh (base : String) (i : Nat) (seen : List String) :
    dedupe base i seen ∉ seen := by
  have hex := exists_free base i seen
  have hspec := Nat.find_spec hex
  have hmin : ∀ m, m < Nat.find hex → candidate base i m ∈ seen := by
    intro m hm
    have := Nat.find_min hex hm
    simpa using this
  rw [dedupe_eq base i seen (Nat.find hex) hspec hmin]
  exact hspec

/-!  Lemmas: the split pipeline. -/

/-- Cancelling a common appended suffix of strings. -/
theorem strApp_right_cancel {a b s : String} (h : a ++ s = b ++ s) : a = b := by
  have hd := congrArg String.data h
  simp only [strApp_data] at hd
  exact String.ext (List.append_cancel_right hd)

/-- Every name emitted by the split loop is `b ++ ".pdf"` for a base `b` that
was not yet in `seen` when the entry was written. -/
theorem splitGo_names (mode : String) :
    ∀ ps i seen nm, nm ∈ (splitGo mode ps i seen).map Prod.fst →
    ∃ b, nm = b ++ ".pdf" ∧ b ∉ seen := by
  intro ps
  induction ps with
  | nil => intro i seen nm h; simp [splitGo] at h
  | cons p rest ih =>
    intro i seen nm h
    simp only [splitGo, List.map_cons, List.mem_cons] at h
    rcases h with h | h
    · refine ⟨_, h, ?_⟩
      exact dedupe_fresh _ i seen
    · rcases ih (i+1) (_ :: seen) nm h with ⟨b, hb, hbs⟩
      exact ⟨b, hb, fun hmem => hbs (List.mem_cons_of_mem _ hmem)⟩

/-- The names emitted by the split loop are pairwise distinct. -/
theorem splitGo_nodup (mode : String) :
    ∀ ps i seen, ((splitGo mode ps i seen).map Prod.fst).Nodup := by
  intro ps
  induction ps with
  | nil => intro i seen; simp [splitGo]
  | cons p rest ih =>
    intro i seen
    simp only [splitGo, List.map_cons, List.nodup_cons]
    constructor
    · intro hmem
      rcases splitGo_names mode rest (i+1) (_ :: seen) _ hmem with ⟨b, hb, hbs⟩
      have : b = dedupe (sanitize_filename _) i seen := strApp_right_cancel hb.symm
      exact hbs (this ▸ List.mem_cons_self _ _)
    · exact ih (i+1) _

/-- The split loop emits the pages themselves, in order. -/
theorem splitGo_snd (mode : String) :
    ∀ ps i seen, (splitGo mode ps i seen).map Prod.snd = ps := by
  intro ps
  induction ps with
  | nil => intro i seen; simp [splitGo]
  | cons p rest ih =>
    intro i seen
    simp only [splitGo, List.map_cons, List.cons.injEq]
    exact ⟨trivial, ih (i+1) _⟩

/-!  Lemmas: the batch pipeline. -/

/-- Computation rule for `ZEntry.isErr` on a PDF payload. -/
theorem isErr_pdf (s : String) : (ZEntry.pdf s).isErr = false := rfl

/-- Computation rule for `ZEntry.isErr` on a diagnostic payload. -/
theorem isErr_errTxt (s : String) : (ZEntry.errTxt s).isErr = true := rfl

/-- The batch loop writes exactly one entry per input file. -/
theorem batchGo_length (cr : Option String) (keep : Bool) :
    ∀ files idx uidx, (batchGo cr keep files idx uidx).length = files.length := by
  intro files
  induction files with
  | nil => intro idx uidx; simp [batchGo]
  | cons up rest ih =>
    intro idx uidx
    by_cases hf : up.fails
    · simp [batchGo, hf, ih]
    · by_cases hb : bolTruthy (extract_bol_from_first_page up.text cr)
      · simp [batchGo, hf, hb, ih]
      · by_cases hk : keep && nameTruthy up.origName
        · simp [batchGo, hf, hb, hk, ih]
        · simp [batchGo, hf, hb, hk, ih]

/-- Entry `j` of the batch archive is an error diagnostic exactly when file `j`
failed. -/
theorem batchGo_isErr (cr : Option String) (keep : Bool) :
    ∀ files idx uidx (j : Nat),
    ((batchGo cr keep files idx uidx)[j]?).map (fun (e : String × ZEntry) => e.2.isErr) =
      (files[j]?).map UpFile.fails := by
  intro files
  induction files with
  | nil => intro idx uidx j; simp [batchGo]
  | cons up rest ih =>
    intro idx uidx j
    by_cases hf : up.fails
    · cases j with
      | zero => simp [batchGo, hf, isErr_pdf, isErr_errTxt]
      | succ j => simp [batchGo, hf, ih]
    · cases j with
      | zero =>
        by_cases hb : bolTruthy (extract_bol_from_first_page up.text cr)
        · simp [batchGo, hf, hb, isErr_pdf, isErr_errTxt]
        · by_cases hk : keep && nameTruthy up.origName
          · simp [batchGo, hf, hb, hk, isErr_pdf, isErr_errTxt]
          · simp [batchGo, hf, hb, hk, isErr_pdf, isErr_errTxt]
      | succ j =>
        by_cases hb : bolTruthy (extract_bol_from_first_page up.text cr)
        · simp [batchGo, hf, hb, ih]
        · by_cases hk : keep && nameTruthy up.origName
          · simp [batchGo, hf, hb, hk, ih]
          · simp [batchGo, hf, hb, hk, ih]

/-- The number of non-error entries equals the number of files that did not
fail. -/
theorem batchGo_countNonErr (cr : Option String) (keep : Bool) :
    ∀ files idx uidx,
    (batchGo cr keep files idx uidx).countP (fun (e : String × ZEntry) => !e.2.isErr) =
      files.countP (fun (f : UpFile) => !f.fails) := by
  intro files
  induction files with
  | nil => intro idx uidx; simp [batchGo]
  | cons up rest ih =>
    intro idx uidx
    by_cases hf : up.fails
    · simp [batchGo, hf, List.countP_cons, isErr_pdf, isErr_errTxt, ih]
    · by_cases hb : bolTruthy (extract_bol_from_first_page up.text cr)
      · simp [batchGo, hf, hb, List.countP_cons, isErr_pdf, isErr_errTxt, ih]
      · by_cases hk : keep && nameTruthy up.origName
        · simp [batchGo, hf, hb, hk, List.countP_cons, isErr_pdf, isErr_errTxt, ih]
        · simp [batchGo, hf, hb, hk, List.countP_cons, isErr_pdf, isErr_errTxt, ih]

/-- A failing file's entry carries the positional diagnostic name. -/
theorem batchGo_errName (cr : Option String) (keep : Bool) :
    ∀ files idx uidx (j : Nat) f, files[j]? = some f → f.fails = true →
    ((batchGo cr keep files idx uidx)[j]?).map Prod.fst =
      some ("ERROR_" ++ decRepr (idx + j) ++ ".txt") := by
  intro files
  induction files with
  | nil => intro idx uidx j f h _; simp at h
  | cons up rest ih =>
    intro idx uidx j f hj hf
    cases j with
    | zero =>
      simp at hj
      subst hj
      simp [batchGo, hf]
    | succ j =>
      simp only [List.getElem?_cons_succ] at hj
      by_cases hup : up.fails
      · have := ih (idx+1) uidx j f hj hf
        simpa [batchGo, hup, Nat.add_assoc, Nat.add_comm 1 j] using this
      · by_cases hb : bolTruthy (extract_bol_from_first_page up.text cr)
        · have := ih (idx+1) uidx j f hj hf
          simpa [batchGo, hup, hb, Nat.add_assoc, Nat.add_comm 1 j] using this
        · by_cases hk : keep && nameTruthy up.origName
          · have := ih (idx+1) (uidx) j f hj hf
            simpa [batchGo, hup, hb, hk, Nat.add_assoc, Nat.add_comm 1 j] using this
          · have := ih (idx+1) (uidx+1) j f hj hf
            simpa [batchGo, hup, hb, hk, Nat.add_assoc, Nat.add_comm 1 j] using this

/-!  Lemmas: characters surviving the sanitizer, and the sanitizer fixing
clean strings. -/

/-- Characters of a collapse are the replacement or non-run characters of the
input. -/
theorem mem_collRuns (p : Char → Bool) (r : Char) :
    ∀ l flag c, c ∈ collRuns p r flag l → c = r ∨ (c ∈ l ∧ p c = false) := by
  intro l
  induction l with
  | nil => intro flag c h; simp [collRuns] at h
  | cons a as ih =>
    intro flag c h
    simp only [collRuns] at h
    by_cases hp : p a
    · rw [if_pos hp] at h
      rcases flag with _ | _
      · simp only [if_neg (by simp : false ≠ true)] at h
        rcases List.mem_cons.mp h with h1 | h2
        · exact Or.inl h1
        · rcases ih true c h2 with h3 | ⟨h4, h5⟩
          · exact Or.inl h3
          · exact Or.inr ⟨List.mem_cons_of_mem a h4, h5⟩
      · simp only [if_pos rfl] at h
        rcases ih true c h with h3 | ⟨h4, h5⟩
        · exact Or.inl h3
        · exact Or.inr ⟨List.mem_cons_of_mem a h4, h5⟩
    · rw [if_neg hp] at h
      rcases List.mem_cons.mp h with h1 | h2
      · subst h1
        exact Or.inr ⟨List.mem_cons_self _ _, by simpa using hp⟩
      · rcases ih false c h2 with h3 | ⟨h4, h5⟩
        · exact Or.inl h3
        · exact Or.inr ⟨List.mem_cons_of_mem a h4, h5⟩

/-- Collapsing is the identity when no character is in the class. -/
theorem collRuns_id (p : Char → Bool) (r : Char) :
    ∀ l flag, (∀ c ∈ l, p c = false) → collRuns p r flag l = l := by
  intro l
  induction l with
  | nil => intro flag _; rfl
  | cons a as ih =>
    intro flag h
    have ha := h a (List.mem_cons_self a as)
    simp only [collRuns, ha]
    simp only [Bool.false_eq_true, if_false]
    rw [ih false (fun c hc => h c (List.mem_cons_of_mem a hc))]

/-- Dropping from the front is the identity when no character matches. -/
theorem dropWhile_id_of (p : Char → Bool) (l : List Char)
    (h : ∀ c ∈ l, p c = false) : l.dropWhile p = l := by
  cases l with
  | nil => rfl
  | cons a as =>
    rw [List.dropWhile_cons, h a (List.mem_cons_self a as)]
    simp

/-- Members of a stripped list are members of the original. -/
theorem mem_stripL (l : List Char) (c : Char) (h : c ∈ stripL l) : c ∈ l := by
  unfold stripL dropEndWhile at h
  have h1 : c ∈ (l.dropWhile isPySpace).reverse.dropWhile isPySpace :=
    List.mem_reverse.mp h
  have h2 : c ∈ (l.dropWhile isPySpace).reverse :=
    (List.dropWhile_suffix isPySpace).sublist.mem h1
  have h3 : c ∈ l.dropWhile isPySpace := List.mem_reverse.mp h2
  exact (List.dropWhile_suffix isPySpace).sublist.mem h3

/-- Stripping is the identity when no character is whitespace. -/
theorem stripL_id (l : List Char) (h : ∀ c ∈ l, isPySpace c = false) :
    stripL l = l := by
  unfold stripL dropEndWhile
  rw [dropWhile_id_of isPySpace l h]
  rw [dropWhile_id_of isPySpace l.reverse (fun c hc => h c (List.mem_reverse.mp hc))]
  exact List.reverse_reverse l

/-- Whitespace normalization is the identity on whitespace-free lists. -/
theorem normWsL_id (l : List Char) (h : ∀ c ∈ l, isPySpace c = false) :
    normWsL l = l := by
  unfold normWsL collapseRuns
  rw [collRuns_id isPySpace ' ' l false h]
  exact stripL_id l h

/-- A successful lookup comes from a table entry. -/
theorem lookup_mem : ∀ (l : List (Char × List Char)) (a : Char) (b : List Char),
    l.lookup a = some b → (a, b) ∈ l := by
  intro l
  induction l with
  | nil => intro a b h; simp [List.lookup] at h
  | cons p t ih =>
    intro a b h
    rcases p with ⟨k, v⟩
    rw [List.lookup_cons] at h
    by_cases hk : a == k
    · rw [hk] at h
      simp only at h
      have : a = k := by simpa using hk
      subst this
      cases h
      exact List.mem_cons_self _ _
    · rw [Bool.not_eq_true] at hk
      rw [hk] at h
      exact List.mem_cons_of_mem _ (ih a b h)

/-- Every entry of the decomposition table decomposes to stable characters. -/
theorem table_stable : ∀ p ∈ nfkdTable, ∀ d ∈ p.2, nfkdChar d = [d] := by decide

/-- Every character produced by the decomposition is itself stable. -/
theorem nfkd_stable (c d : Char) (h : d ∈ nfkdChar c) : nfkdChar d = [d] := by
  unfold nfkdChar at h
  cases hl : nfkdTable.lookup c with
  | none =>
    rw [hl] at h
    simp at h
    subst h
    unfold nfkdChar
    rw [hl]
  | some l =>
    rw [hl] at h
    exact table_stable (c, l) (lookup_mem nfkdTable c l hl) d h

/-- Decomposition is the identity on stable lists. -/
theorem flatMap_id_of (l : List Char) (h : ∀ c ∈ l, nfkdChar c = [c]) :
    l.flatMap nfkdChar = l := by
  induction l with
  | nil => rfl
  | cons a as ih =>
    rw [List.flatMap_cons, h a (List.mem_cons_self a as),
        ih (fun c hc => h c (List.mem_cons_of_mem a hc))]
    rfl

/-- Space-to-underscore is the identity on space-free lists. -/
theorem map_sp_id (l : List Char) (h : ∀ c ∈ l, c ≠ ' ') :
    l.map (fun c => if c = ' ' then '_' else c) = l := by
  induction l with
  | nil => rfl
  | cons a as ih =>
    simp only [List.map_cons, if_neg (h a (List.mem_cons_self a as)),
      ih (fun c hc => h c (List.mem_cons_of_mem a hc))]

/-- Every character of a sanitized list is clean. -/
theorem sanitizeL_chars (l : List Char) (m : Nat) :
    ∀ c ∈ sanitizeL l m, cleanC c := by
  intro c hc
  unfold sanitizeL at hc
  have hc2 := List.mem_of_mem_take hc
  rcases List.mem_map.mp hc2 with ⟨a, ha, rfl⟩
  have ha2 := mem_stripL _ a ha
  rcases mem_collRuns isPySpace ' ' _ false a ha2 with rfl | ⟨ha3, hws⟩
  · simp only [if_pos rfl]
    decide
  · have hnsp : a ≠ ' ' := by
      intro h
      subst h
      simp [isPySpace] at hws
    rw [if_neg hnsp]
    rcases mem_collRuns isForbiddenC '_' _ false a ha3 with rfl | ⟨ha4, hforb⟩
    · decide
    · rcases List.mem_filter.mp ha4 with ⟨ha5, hcomb⟩
      rcases List.mem_flatMap.mp ha5 with ⟨e, _, ha6⟩
      exact ⟨nfkd_stable e a ha6, by simpa using hcomb, hforb, hws⟩

/-- The sanitizer pipeline fixes clean lists that fit the length bound. -/
theorem sanitizeL_id (l : List Char) (m : Nat) (h : ∀ c ∈ l, cleanC c)
    (hlen : l.length ≤ m) : sanitizeL l m = l := by
  show ((normWsL (collapseRuns isForbiddenC '_'
      ((l.flatMap nfkdChar).filter (fun c => !isCombiningC c)))).map
      (fun c => if c = ' ' then '_' else c)).take m = l
  rw [flatMap_id_of l (fun c hc => (h c hc).1)]
  rw [List.filter_eq_self.mpr (fun c hc => by simpa using (h c hc).2.1)]
  unfold collapseRuns
  rw [collRuns_id isForbiddenC '_' l false (fun c hc => (h c hc).2.2.1)]
  rw [normWsL_id l (fun c hc => (h c hc).2.2.2)]
  rw [map_sp_id l (fun c hc => by
    intro he
    have := (h c hc).2.2.2
    rw [he] at this
    simp [isPySpace] at this)]
  exact List.take_of_length_le hlen

/-- Case analysis on the final empty check of the sanitizer. -/
theorem sanitize_cases (s : String) :
    (sanitize_filename s = "Untitled" ∧ (sanitizeL s.data 120).isEmpty = true) ∨
    (sanitize_filename s = String.mk (sanitizeL s.data 120) ∧
      (sanitizeL s.data 120).isEmpty = false) := by
  by_cases he : (sanitizeL s.data 120).isEmpty
  · exact Or.inl ⟨by simp [sanitize_filename, sanitize_filename_max, he], he⟩
  · exact Or.inr ⟨by simp [sanitize_filename, sanitize_filename_max, he],
      by simpa using he⟩

/-- Every character of a sanitized filename is clean ("Untitled" included). -/
theorem sanitize_chars (s : String) :
    ∀ c ∈ (sanitize_filename s).data, cleanC c := by
  intro c hc
  rcases sanitize_cases s with ⟨he, _⟩ | ⟨he, _⟩
  · rw [he] at hc
    have hd : ∀ x ∈ "Untitled".data, cleanC x := by decide
    exact hd c hc
  · rw [he] at hc
    exact sanitizeL_chars s.data 120 c hc

/-- A sanitized filename fits the length bound. -/
theorem sanitize_len (s : String) : (sanitize_filename s).data.length ≤ 120 := by
  rcases sanitize_cases s with ⟨he, _⟩ | ⟨he, _⟩
  · rw [he]
    decide
  · rw [he]
    show (sanitizeL s.data 120).length ≤ 120
    unfold sanitizeL
    simp

/-- A sanitized filename is never the empty string. -/
theorem sanitize_ne_nil (s : String) : (sanitize_filename s).data ≠ [] := by
  rcases sanitize_cases s with ⟨he, _⟩ | ⟨he, hne⟩
  · rw [he]
    decide
  · rw [he]
    simp only [String.data]
    rw [Ne, ← List.isEmpty_iff]
    simp [hne]

/-- The sanitizer fixes any string whose characters are clean, which fits the
bound and is nonempty. -/
theorem sanitize_fix (t : String) (h : ∀ c ∈ t.data, cleanC c)
    (hlen : t.data.length ≤ 120) (hne : t.data ≠ []) :
    sanitize_filename t = t := by
  have hid : sanitizeL t.data 120 = t.data := sanitizeL_id t.data 120 h hlen
  rcases sanitize_cases t with ⟨_, he⟩ | ⟨he, _⟩
  · exfalso
    rw [hid, List.isEmpty_iff] at he
    exact hne he
  · rw [he, hid]

/-- Characters of the page-number fallback name are clean. -/
theorem fallback_chars (i : Nat) :
    ∀ c ∈ ("Page_" ++ decRepr i).data, cleanC c := by
  intro c hc
  rw [strApp_data] at hc
  rcases List.mem_append.mp hc with h1 | h2
  · have hd : ∀ x ∈ "Page_".data, cleanC x := by decide
    exact hd c h1
  · have hd : ∀ x ∈ ['0','1','2','3','4','5','6','7','8','9'], cleanC x := by decide
    exact hd c (decRepr_chars i c h2)

/-- The sanitizer fixes the page-number fallback name when it fits the
bound. -/
theorem sanitize_fallback (i : Nat)
    (hlen : ("Page_" ++ decRepr i).data.length ≤ 120) :
    sanitize_filename ("Page_" ++ decRepr i) = "Page_" ++ decRepr i := by
  refine sanitize_fix _ (fallback_chars i) hlen ?_
  rw [strApp_data]
  simp

/-!  Lemmas: idempotence of whitespace normalization. -/

/-- Dropping is the identity when the head does not match. -/
theorem dropWhile_eq_self_of_head (p : Char → Bool) :
    ∀ l : List Char, (∀ c, l.head? = some c → p c = false) → l.dropWhile p = l := by
  intro l h
  cases l with
  | nil => rfl
  | cons a as =>
    rw [List.dropWhile_cons, h a rfl]
    simp

/-- Dropping twice is dropping once. -/
theorem dropWhile_dropWhile (p : Char → Bool) (l : List Char) :
    (l.dropWhile p).dropWhile p = l.dropWhile p := by
  refine dropWhile_eq_self_of_head p _ (fun c hc => ?_)
  have := List.head?_dropWhile_not p l
  rw [hc] at this
  exact this

/-- The end-trimmed list is a prefix of the original. -/
theorem dropEndWhile_isPre (p : Char → Bool) (l : List Char) :
    dropEndWhile p l <+: l := by
  have h1 : l.reverse.dropWhile p <:+ l.reverse := List.dropWhile_suffix p
  have h2 : (dropEndWhile p l).reverse <:+ l.reverse := by
    unfold dropEndWhile
    rw [List.reverse_reverse]
    exact h1
  exact (List.reverse_suffix).mp h2

/-- Stripping is idempotent. -/
theorem stripL_idem (l : List Char) : stripL (stripL l) = stripL l := by
  unfold stripL
  set C := l.dropWhile isPySpace with hC
  have hBrev : (dropEndWhile isPySpace C).reverse = C.reverse.dropWhile isPySpace := by
    unfold dropEndWhile
    rw [List.reverse_reverse]
  have hdw : (dropEndWhile isPySpace C).dropWhile isPySpace = dropEndWhile isPySpace C := by
    refine dropWhile_eq_self_of_head isPySpace _ (fun c hc => ?_)
    rcases hpre : dropEndWhile isPySpace C with _ | ⟨b, B'⟩
    · rw [hpre] at hc
      simp at hc
    · rw [hpre] at hc
      simp at hc
      subst hc
      rcases dropEndWhile_isPre isPySpace C with ⟨t, ht⟩
      rw [hpre] at ht
      have hh := List.head?_dropWhile_not isPySpace l
      rw [← hC, ← ht] at hh
      simpa using hh
  have hrfl : ∀ x : List Char,
      dropEndWhile isPySpace x = (x.reverse.dropWhile isPySpace).reverse :=
    fun _ => rfl
  rw [hdw, hrfl (dropEndWhile isPySpace C), hBrev, dropWhile_dropWhile, ← hBrev,
    List.reverse_reverse]

/-- Unfolding collapse at a run character, outside a run. -/
theorem collRuns_sp (p : Char → Bool) (r : Char) {c : Char} (hc : p c = true)
    (x : List Char) : collRuns p r false (c :: x) = r :: collRuns p r true x := by
  simp [collRuns, hc]

/-- Unfolding collapse at a run character, inside a run. -/
theorem collRuns_sp_in (p : Char → Bool) (r : Char) {c : Char} (hc : p c = true)
    (x : List Char) : collRuns p r true (c :: x) = collRuns p r true x := by
  simp [collRuns, hc]

/-- Unfolding collapse at a non-run character. -/
theorem collRuns_nsp (p : Char → Bool) (r : Char) {c : Char} (hc : p c = false)
    (flag : Bool) (x : List Char) :
    collRuns p r flag (c :: x) = c :: collRuns p r false x := by
  simp [collRuns, hc]

/-- Normality at a space head. -/
theorem wsRunOk_cons_sp (x : List Char) :
    wsRunOk (' ' :: x) = (headNotSp x && wsRunOk x) := by
  have h : isPySpace ' ' = true := by decide
  simp [wsRunOk, h]

/-- Normality at a non-space head. -/
theorem wsRunOk_cons_nsp {c : Char} (hc : isPySpace c = false) (x : List Char) :
    wsRunOk (c :: x) = wsRunOk x := by
  simp [wsRunOk, hc]

/-- The tail of a whitespace-normal list is whitespace-normal. -/
theorem wsRunOk_tail {c : Char} {cs : List Char} (h : wsRunOk (c :: cs) = true) :
    wsRunOk cs = true := by
  simp only [wsRunOk, Bool.and_eq_true] at h
  exact h.2

/-- Collapsing yields a whitespace-normal list (and starting inside a run also
yields one that starts with a non-space). -/
theorem collRuns_wsRunOk : ∀ l : List Char,
    wsRunOk (collRuns isPySpace ' ' false l) = true ∧
    wsRunOk (collRuns isPySpace ' ' true l) = true ∧
    headNotSp (collRuns isPySpace ' ' true l) = true := by
  intro l
  induction l with
  | nil => exact ⟨rfl, rfl, rfl⟩
  | cons a as ih =>
    by_cases ha : isPySpace a
    · refine ⟨?_, ?_, ?_⟩
      · rw [collRuns_sp isPySpace ' ' ha, wsRunOk_cons_sp]
        simp [ih.2.1, ih.2.2]
      · rw [collRuns_sp_in isPySpace ' ' ha]
        exact ih.2.1
      · rw [collRuns_sp_in isPySpace ' ' ha]
        exact ih.2.2
    · have hf : isPySpace a = false := by simpa using ha
      refine ⟨?_, ?_, ?_⟩
      · rw [collRuns_nsp isPySpace ' ' hf, wsRunOk_cons_nsp hf]
        exact ih.1
      · rw [collRuns_nsp isPySpace ' ' hf, wsRunOk_cons_nsp hf]
        exact ih.1
      · rw [collRuns_nsp isPySpace ' ' hf]
        simp [headNotSp, hf]

/-- Collapsing is the identity on whitespace-normal lists (and on lists with a
non-space head when inside a run). -/
theorem collRuns_id_wsOk : ∀ l : List Char,
    (wsRunOk l = true → collRuns isPySpace ' ' false l = l) ∧
    (wsRunOk l = true → headNotSp l = true → collRuns isPySpace ' ' true l = l) := by
  intro l
  induction l with
  | nil => exact ⟨fun _ => rfl, fun _ _ => rfl⟩
  | cons a as ih =>
    constructor
    · intro h
      by_cases ha : isPySpace a
      · have hmix : (a == ' ') = true ∧ headNotSp as = true := by
          simp only [wsRunOk, ha, if_pos, Bool.and_eq_true] at h
          exact ⟨h.1.1, h.1.2⟩
        have hsp2 : a = ' ' := by simpa using hmix.1
        rw [collRuns_sp isPySpace ' ' ha, ih.2 (wsRunOk_tail h) hmix.2, hsp2]
      · have hf : isPySpace a = false := by simpa using ha
        rw [collRuns_nsp isPySpace ' ' hf, ih.1 (wsRunOk_tail h)]
    · intro h hhd
      have hf : isPySpace a = false := by
        simp only [headNotSp] at hhd
        simpa using hhd
      rw [collRuns_nsp isPySpace ' ' hf, ih.1 (wsRunOk_tail h)]

/-- Dropping a whitespace-prefix preserves normality. -/
theorem wsRunOk_dropWhile (p : Char → Bool) :
    ∀ l : List Char, wsRunOk l = true → wsRunOk (l.dropWhile p) = true := by
  intro l
  induction l with
  | nil => intro _; exact rfl
  | cons a as ih =>
    intro h
    rw [List.dropWhile_cons]
    by_cases hp : p a
    · rw [if_pos (by simpa using hp)]
      exact ih (wsRunOk_tail h)
    · rw [if_neg (by simpa using hp)]
      exact h

/-- A prefix of a whitespace-normal list is whitespace-normal. -/
theorem wsRunOk_of_append (l t : List Char) (h : wsRunOk (l ++ t) = true) :
    wsRunOk l = true := by
  induction l with
  | nil => rfl
  | cons a as ih =>
    rw [List.cons_append] at h
    have htl := ih (wsRunOk_tail h)
    simp only [wsRunOk, Bool.and_eq_true] at h ⊢
    refine ⟨?_, htl⟩
    rcases h with ⟨hhead, _⟩
    by_cases ha : isPySpace a
    · rw [if_pos ha] at hhead ⊢
      rw [Bool.and_eq_true] at hhead ⊢
      refine ⟨hhead.1, ?_⟩
      cases as with
      | nil => rfl
      | cons b bs =>
        rw [List.cons_append] at hhead
        exact hhead.2
    · rw [if_neg ha] at hhead ⊢

/-- Stripping preserves normality. -/
theorem wsRunOk_stripL (l : List Char) (h : wsRunOk l = true) :
    wsRunOk (stripL l) = true := by
  unfold stripL
  have h1 := wsRunOk_dropWhile isPySpace l h
  rcases dropEndWhile_isPre isPySpace (l.dropWhile isPySpace) with ⟨t, ht⟩
  refine wsRunOk_of_append _ t ?_
  rw [ht]
  exact h1

/-- Whitespace normalization is idempotent. -/
theorem normWsL_idem (l : List Char) : normWsL (normWsL l) = normWsL l := by
  unfold normWsL collapseRuns
  have hA := (collRuns_wsRunOk l).1
  have hB : wsRunOk (stripL (collRuns isPySpace ' ' false l)) = true :=
    wsRunOk_stripL _ hA
  rw [(collRuns_id_wsOk _).1 hB]
  exact stripL_idem _

/-- String-level idempotence of `normalize_ws`. -/
theorem normalize_ws_idem (s : String) :
    normalize_ws (normalize_ws s) = normalize_ws s := by
  unfold normalize_ws
  rw [normWsL_idem]

/-!  Lemmas: the resolvers. -/

/-- A rule-list result always comes out of a final `normalize_ws`. -/
theorem firstRuleMatch_norm : ∀ (rs : List XRule) (t : List Char) (v : String),
    firstRuleMatch rs t = some v → ∃ x, v = normalize_ws x := by
  intro rs
  induction rs with
  | nil => intro t v h; simp [firstRuleMatch] at h
  | cons r rest ih =>
    intro t v h
    simp only [firstRuleMatch] at h
    cases ha : applyRule r t with
    | some w =>
      rw [ha] at h
      simp only at h
      cases h
      unfold applyRule at ha
      cases hs : pySearchL r.re r.ngroups t with
      | none => rw [hs] at ha; simp at ha
      | some m =>
        rw [hs] at ha
        simp only [Option.some.injEq] at ha
        exact ⟨_, ha.symm⟩
    | none =>
      rw [ha] at h
      simp only at h
      exact ih t v h

/-- A labeled-BOL result always comes out of a final `normalize_ws`. -/
theorem firstLabeledBol_norm : ∀ (rs : List RE) (t : List Char) (v : String),
    firstLabeledBol rs t = some v → ∃ x, v = normalize_ws x := by
  intro rs
  induction rs with
  | nil => intro t v h; simp [firstLabeledBol] at h
  | cons r rest ih =>
    intro t v h
    simp only [firstLabeledBol] at h
    cases hs : pySearchL r 1 t with
    | some m =>
      rw [hs] at h
      simp only [Option.some.injEq] at h
      exact ⟨_, h.symm⟩
    | none =>
      rw [hs] at h
      exact ih t v h

/-- A batch-resolver result always comes out of a final `normalize_ws`. -/
theorem extract_bol_norm (t : String) (cr : Option String) (v : String)
    (h : extract_bol_from_first_page t cr = some v) : ∃ x, v = normalize_ws x := by
  have hbuiltin : ∀ w : String,
      (match firstLabeledBol [reB1, reB2, reB3] t.data with
       | some u => some u
       | none =>
         match pySearchL reBLoose 0 t.data with
         | some m => some (normalize_ws m.matched)
         | none => none) = some w → ∃ x, w = normalize_ws x := by
    intro w hw
    cases hl : firstLabeledBol [reB1, reB2, reB3] t.data with
    | some u =>
      rw [hl] at hw
      simp only [Option.some.injEq] at hw
      subst hw
      exact firstLabeledBol_norm _ t.data u hl
    | none =>
      rw [hl] at hw
      cases hs : pySearchL reBLoose 0 t.data with
      | some m =>
        rw [hs] at hw
        simp only [Option.some.injEq] at hw
        exact ⟨_, hw.symm⟩
      | none =>
        rw [hs] at hw
        simp at hw
  rcases cr with _ | p
  · exact hbuiltin v h
  · simp only [extract_bol_from_first_page] at h
    by_cases hp : p.isEmpty
    · rw [if_pos hp] at h
      exact hbuiltin v h
    · rw [if_neg hp] at h
      cases hcmp : compileRegexL p.data with
      | none =>
        rw [hcmp] at h
        exact hbuiltin v h
      | some pr =>
        rcases pr with ⟨r, ng⟩
        rw [hcmp] at h
        simp only at h
        cases hs : pySearchL r ng t.data with
        | none =>
          rw [hs] at h
          exact hbuiltin v h
        | some m =>
          rw [hs] at h
          simp only [Option.some.injEq] at h
          exact ⟨_, h.symm⟩

/-- A match among the first rules decides the whole concatenated list. -/
theorem firstRuleMatch_append_some :
    ∀ (l1 l2 : List XRule) (t : List Char) (v : String),
    firstRuleMatch l1 t = some v → firstRuleMatch (l1 ++ l2) t = some v := by
  intro l1
  induction l1 with
  | nil => intro l2 t v h; simp [firstRuleMatch] at h
  | cons r rest ih =>
    intro l2 t v h
    rw [List.cons_append]
    cases ha : applyRule r t with
    | some w =>
      simp only [firstRuleMatch, ha] at h ⊢
      exact h
    | none =>
      simp only [firstRuleMatch, ha] at h ⊢
      exact ih l2 t v h

/-!  The claims. -/

/-- Claim C1 (amended): in split mode the entry names written into one
produced archive are pairwise distinct; batch mode performs no cross-document
deduplication, so an archive it produces can repeat an entry name. -/
theorem C1_split_names_distinct :
    (∀ (pages : List Page) (mode : String),
        ((split_pdf_pages_to_zip pages mode).map Prod.fst).Nodup) ∧
    ∃ (files : List UpFile) (cr : Option String) (keep : Bool),
        ¬ ((batch_rename_pdfs_to_zip files cr keep).map Prod.fst).Nodup := by
  constructor
  · intro pages mode
    exact splitGo_nodup mode pages 1 []
  · refine ⟨[⟨false, "BOL Number: PLS00174455", none, "bytesA", ""⟩,
             ⟨false, "BOL Number: PLS00174455", none, "bytesB", ""⟩], none, false, ?_⟩
    decide

/-- Claim C1, counterexample to the claim as stated: a batch run over two
documents that both resolve to the BOL `PLS00174455` writes the same entry
name twice, so the produced archive has two entries sharing a name. -/
theorem C1_counterexample :
    (batch_rename_pdfs_to_zip
        [⟨false, "BOL Number: PLS00174455", none, "bytesA", ""⟩,
         ⟨false, "BOL Number: PLS00174455", none, "bytesB", ""⟩] none false).map Prod.fst
      = ["PLS00174455.pdf", "PLS00174455.pdf"] ∧
    ¬ (["PLS00174455.pdf", "PLS00174455.pdf"] : List String).Nodup := by
  constructor
  · decide
  · decide

/-- Claim C2 (amended): split mode emits exactly one entry per page, in input
order, each containing only that page, and an unmatched page `i` gets the
fallback name `Page_<i>` (de-duplicated like any other name; the plain name
when it is free and fits the length bound); batch mode emits exactly one entry
per document — a non-error entry when processing succeeds and the diagnostic
`ERROR_<idx>.txt` when it fails — so the non-error entries number the
documents that succeeded. -/
theorem C2_archive_completeness :
    (∀ (pages : List Page) (mode : String),
        (split_pdf_pages_to_zip pages mode).map Prod.snd = pages) ∧
    (∀ (pages : List Page) (mode : String),
        (split_pdf_pages_to_zip pages mode).length = pages.length) ∧
    (∀ (mode : String) (p : Page) (rest : List Page) (i : Nat) (seen : List String),
        extract_identifier (pageText p) mode = none →
        ("Page_" ++ decRepr i).data.length ≤ 120 →
        ("Page_" ++ decRepr i) ∉ seen →
        (splitGo mode (p :: rest) i seen).head?.map Prod.fst =
          some ("Page_" ++ decRepr i ++ ".pdf")) ∧
    (∀ (files : List UpFile) (cr : Option String) (keep : Bool),
        (batch_rename_pdfs_to_zip files cr keep).length = files.length) ∧
    (∀ (files : List UpFile) (cr : Option String) (keep : Bool) (j : Nat),
        ((batch_rename_pdfs_to_zip files cr keep)[j]?).map
            (fun (e : String × ZEntry) => e.2.isErr) = (files[j]?).map UpFile.fails) ∧
    (∀ (files : List UpFile) (cr : Option String) (keep : Bool),
        (batch_rename_pdfs_to_zip files cr keep).countP
            (fun (e : String × ZEntry) => !e.2.isErr) =
          files.countP (fun (f : UpFile) => !f.fails)) ∧
    (∀ (files : List UpFile) (cr : Option String) (keep : Bool) (j : Nat) (f : UpFile),
        files[j]? = some f → f.fails = true →
        ((batch_rename_pdfs_to_zip files cr keep)[j]?).map Prod.fst =
          some ("ERROR_" ++ decRepr (j+1) ++ ".txt")) := by
  refine ⟨?_, ?_, ?_, ?_, ?_, ?_, ?_⟩
  · intro pages mode
    exact splitGo_snd mode pages 1 []
  · intro pages mode
    have := congrArg List.length (splitGo_snd mode pages 1 [])
    simpa using this
  · intro mode p rest i seen hext hlen hseen
    simp only [splitGo, hext]
    have hsan : sanitize_filename ("Page_" ++ decRepr i) = "Page_" ++ decRepr i :=
      sanitize_fallback i hlen
    rw [hsan]
    have hded : dedupe ("Page_" ++ decRepr i) i seen = "Page_" ++ decRepr i := by
      have h0 : candidate ("Page_" ++ decRepr i) i 0 ∉ seen := hseen
      have := dedupe_eq ("Page_" ++ decRepr i) i seen 0 h0
        (fun m hm => absurd hm (Nat.not_lt_zero m))
      exact this
    rw [hded]
    rfl
  · intro files cr keep
    exact batchGo_length cr keep files 1 1
  · intro files cr keep j
    exact batchGo_isErr cr keep files 1 1 j
  · intro files cr keep
    exact batchGo_countNonErr cr keep files 1 1
  · intro files cr keep j f hj hf
    have := batchGo_errName cr keep files 1 1 j f hj hf
    simpa [Nat.add_comm 1 j] using this

/-- Claim C2, witness: the fallback clause at page 7 with six earlier fallback
names in scope yields the entry name `Page_7.pdf`, and a batch over one
unreadable document yields the single diagnostic entry `ERROR_1.txt`. -/
theorem C2_witness :
    extract_identifier "" "Auto (recommended)" = none ∧
    (splitGo "Auto (recommended)" [⟨some ""⟩] 7
        ["Page_1", "Page_2", "Page_3", "Page_4", "Page_5", "Page_6"]).head?.map Prod.fst =
      some "Page_7.pdf" ∧
    ((batch_rename_pdfs_to_zip [⟨true, "", none, "bytes", "unreadable"⟩] none
        false)[0]?).map Prod.fst = some "ERROR_1.txt" := by
  refine ⟨by decide, ?_, ?_⟩
  · have h := C2_archive_completeness.2.2.1 "Auto (recommended)" ⟨some ""⟩ [] 7
      ["Page_1", "Page_2", "Page_3", "Page_4", "Page_5", "Page_6"]
      (by decide) (by decide) (by decide)
    rw [h]
    decide
  · have h := C2_archive_completeness.2.2.2.2.2.2
      [⟨true, "", none, "bytes", "unreadable"⟩] none false 0
      ⟨true, "", none, "bytes", "unreadable"⟩ (by decide) (by decide)
    rw [h]
    decide

/-- Claim C2, counterexample to the claim as stated: a batch over one failing
document yields zero non-error entries, not one per input document. -/
theorem C2_counterexample :
    (batch_rename_pdfs_to_zip [⟨true, "", none, "bytes", "unreadable"⟩] none
        false).countP (fun (e : String × ZEntry) => !e.2.isErr) = 0 ∧
    ([(⟨true, "", none, "bytes", "unreadable"⟩ : UpFile)] : List UpFile).length = 1 := by
  constructor
  · decide
  · decide

/-- Claim C3: for every proposed sanitized name, seen-set and page index, the
deduplicator returns the first name not in the seen-set from the sequence
`proposed`, `proposed_p<i>`, `proposed_p<i>_3`, `proposed_p<i>_4`, …, and the
returned name is fresh (the caller then inserts it into the set). -/
theorem C3_dedupe_first_free (base : String) (i n : Nat) (seen : List String)
    (hfree : candidate base i n ∉ seen)
    (hall : ∀ m, m < n → candidate base i m ∈ seen) :
    dedupe base i seen = candidate base i n ∧ dedupe base i seen ∉ seen := by
  have h := dedupe_eq base i seen n hfree hall
  exact ⟨h, h ▸ hfree⟩

/-- Claim C3, witness: with `ABC1234` already taken, the second page resolving
to `ABC1234` is emitted as `ABC1234_p2`. -/
theorem C3_witness :
    candidate "ABC1234" 2 1 ∉ ["ABC1234"] ∧
    dedupe "ABC1234" 2 ["ABC1234"] = "ABC1234_p2" := by
  refine ⟨by decide, ?_⟩
  have h := (C3_dedupe_first_free "ABC1234" 2 1 ["ABC1234"] (by decide)
    (by decide)).1
  rw [h]
  decide

/-- Claim C4 (amended): the sanitizer maps the empty string to `Untitled`, but
maps `"***"` to `"_"` — the run of forbidden characters is replaced by one
underscore, so the result is nonempty and the `Untitled` fallback is not
taken. -/
theorem C4_sanitizer_totality :
    sanitize_filename "" = "Untitled" ∧ sanitize_filename "***" = "_" := by
  constructor
  · decide
  · decide

/-- Claim C4, counterexample to the claim as stated: `sanitize("***")` is not
`Untitled`. -/
theorem C4_counterexample : sanitize_filename "***" ≠ "Untitled" := by decide

/-- Claim C5: the filename sanitizer is idempotent. -/
theorem C5_sanitize_idempotent (x : String) :
    sanitize_filename (sanitize_filename x) = sanitize_filename x :=
  sanitize_fix _ (sanitize_chars x) (sanitize_len x) (sanitize_ne_nil x)

/-- Claim C6: when a text matches both an EDI-core rule and a legacy-core
rule, the `auto` and `EDI Import` profiles return the EDI match and the
`Legacy: Primary Reference` profile returns the legacy match — priority is
purely rule order. -/
theorem C6_rule_priority (t v w : String)
    (he : ediResult t = some v) (hl : legacyResult t = some w) :
    (∀ mode : String, mode ≠ "EDI Import" → mode ≠ "Legacy: Primary Reference" →
        extract_identifier t mode = some v) ∧
    extract_identifier t "EDI Import" = some v ∧
    extract_identifier t "Legacy: Primary Reference" = some w := by
  refine ⟨?_, ?_, ?_⟩
  · intro mode h1 h2
    unfold extract_identifier patterns_for_mode
    rw [if_neg h1, if_neg h2, List.append_assoc]
    exact firstRuleMatch_append_some _ _ t.data v he
  · unfold extract_identifier patterns_for_mode
    rw [if_pos rfl, List.append_assoc]
    exact firstRuleMatch_append_some _ _ t.data v he
  · unfold extract_identifier patterns_for_mode
    rw [if_neg (by decide), if_pos rfl, List.append_assoc]
    exact firstRuleMatch_append_some _ _ t.data w hl

/-- Claim C6, witness: a text carrying both a legacy `Primary Ref` label (with
`CD5678`) and an `EDI Import Primary Reference` label (with `AB1234`). -/
theorem C6_witness :
    ediResult "Primary Ref: CD5678 EDI Import Primary Reference: AB1234" =
      some "AB1234" ∧
    legacyResult "Primary Ref: CD5678 EDI Import Primary Reference: AB1234" =
      some "CD5678" ∧
    extract_identifier "Primary Ref: CD5678 EDI Import Primary Reference: AB1234"
      "Auto (recommended)" = some "AB1234" ∧
    extract_identifier "Primary Ref: CD5678 EDI Import Primary Reference: AB1234"
      "EDI Import" = some "AB1234" ∧
    extract_identifier "Primary Ref: CD5678 EDI Import Primary Reference: AB1234"
      "Legacy: Primary Reference" = some "CD5678" := by
  have h := C6_rule_priority "Primary Ref: CD5678 EDI Import Primary Reference: AB1234"
    "AB1234" "CD5678" (by decide) (by decide)
  exact ⟨by decide, by decide, h.1 "Auto (recommended)" (by decide) (by decide),
    h.2.1, h.2.2⟩

/-- Claim C7: resolving `"Shipment Matching Reference: PCL43613-1-2"` under
the auto profile yields `PCL43613`; the rule's post-process discards
everything from the first dash onward in the captured token. -/
theorem C7_shipment_matching_trim :
    extract_identifier "Shipment Matching Reference: PCL43613-1-2"
      "Auto (recommended)" = some "PCL43613" ∧
    trim_left_token "PCL43613-1-2" = "PCL43613" := by
  constructor
  · decide
  · decide

/-- Claim C8: a malformed override pattern is absorbed locally — BOL
resolution with it returns exactly what resolution with no override returns,
and no error is surfaced. -/
theorem C8_malformed_override (t p : String) (hc : compileRegexL p.data = none) :
    extract_bol_from_first_page t (some p) = extract_bol_from_first_page t none := by
  simp only [extract_bol_from_first_page]
  by_cases hp : p.isEmpty
  · rw [if_pos hp]
  · rw [if_neg hp, hc]

/-- Claim C8, witness: the unclosed-parenthesis pattern does not compile, and
resolution with it equals resolution with no override on a text carrying a
labeled BOL. -/
theorem C8_witness :
    compileRegexL "(".data = none ∧
    extract_bol_from_first_page "BOL Number: PLS77665544" (some "(") =
      extract_bol_from_first_page "BOL Number: PLS77665544" none ∧
    extract_bol_from_first_page "BOL Number: PLS77665544" none =
      some "PLS77665544" := by
  refine ⟨by decide, ?_, by decide⟩
  exact C8_malformed_override "BOL Number: PLS77665544" "(" (by decide)

/-- Claim C9: when the override compiles and matches with an empty selected
value, the batch resolver returns the empty string at once (built-in rules are
not consulted), and the batch renamer treats that as "no BOL found" and takes
the fallback-name branch. -/
theorem C9_empty_override_capture (t p : String) (r : RE) (ng : Nat)
    (m : PyMatch) (f : UpFile) (hp : p.isEmpty = false)
    (hc : compileRegexL p.data = some (r, ng))
    (hm : pySearchL r ng t.data = some m)
    (hsel : normalize_ws (selValue m) = "")
    (hf : f.fails = false) (ht : f.text = t) :
    extract_bol_from_first_page t (some p) = some "" ∧
    batch_rename_pdfs_to_zip [f] (some p) false =
      [("Untitled_1.pdf", ZEntry.pdf f.content)] := by
  have h1 : extract_bol_from_first_page t (some p) = some "" := by
    simp only [extract_bol_from_first_page, hp, Bool.false_eq_true, if_false,
      hc, hm, hsel]
  refine ⟨h1, ?_⟩
  have hbt : bolTruthy (some "") = false := by decide
  have hname : "Untitled_" ++ decRepr 1 ++ ".pdf" = "Untitled_1.pdf" := by decide
  simp only [batch_rename_pdfs_to_zip, batchGo, hf, Bool.false_eq_true, if_false,
    ht, h1, hbt, Bool.false_and, hname]

/-- Claim C9, witness: the override `(Q*)` matches any text with an empty
capture, so a document whose first page carries the labeled BOL `PLS00174455`
is still renamed by the `Untitled` fallback. -/
theorem C9_witness :
    extract_bol_from_first_page "BOL Number: PLS00174455" none =
      some "PLS00174455" ∧
    extract_bol_from_first_page "BOL Number: PLS00174455" (some "(Q*)") =
      some "" ∧
    batch_rename_pdfs_to_zip
        [⟨false, "BOL Number: PLS00174455", none, "bytesC", ""⟩] (some "(Q*)")
        false = [("Untitled_1.pdf", ZEntry.pdf "bytesC")] := by
  have h := C9_empty_override_capture "BOL Number: PLS00174455" "(Q*)"
    (compileRegexL "(Q*)".data |>.get (by decide)).1
    (compileRegexL "(Q*)".data |>.get (by decide)).2
    ((pySearchL (compileRegexL "(Q*)".data |>.get (by decide)).1
        (compileRegexL "(Q*)".data |>.get (by decide)).2
        "BOL Number: PLS00174455".data).get (by decide))
    ⟨false, "BOL Number: PLS00174455", none, "bytesC", ""⟩
    (by decide) (by decide) (by decide) (by decide) rfl rfl
  exact ⟨by decide, h.1, h.2⟩

/-- Claim C10: every non-none identifier returned by the resolvers is
whitespace-normalized — it is a fixed point of `normalize_ws`. -/
theorem C10_results_normalized (t mode : String) (cr : Option String)
    (s s' : String) :
    (extract_identifier t mode = some s → s = normalize_ws s) ∧
    (extract_bol_from_first_page t cr = some s' → s' = normalize_ws s') := by
  constructor
  · intro h
    unfold extract_identifier at h
    rcases firstRuleMatch_norm _ _ _ h with ⟨x, rfl⟩
    exact (normalize_ws_idem x).symm
  · intro h
    rcases extract_bol_norm t cr s' h with ⟨x, rfl⟩
    exact (normalize_ws_idem x).symm

/-- Claim C10, witness: the identifier extracted from a labeled BOL text and
the loose PLS token extracted by the batch resolver are both fixed points of
`normalize_ws`. -/
theorem C10_witness :
    extract_identifier "BOL Number: AB1234" "Auto (recommended)" = some "AB1234" ∧
    "AB1234" = normalize_ws "AB1234" ∧
    extract_bol_from_first_page "see PLS1234567 here" none = some "PLS1234567" ∧
    "PLS1234567" = normalize_ws "PLS1234567" := by
  have h := C10_results_normalized "BOL Number: AB1234" "Auto (recommended)" none
    "AB1234" "PLS1234567"
  have h2 := C10_results_normalized "see PLS1234567 here" "Auto (recommended)" none
    "AB1234" "PLS1234567"
  exact ⟨by decide, h.1 (by decide), by decide, h2.2 (by decide)⟩
